import Mathlib

/-!
Verification of the KTX2 array-assembly core of `video-to-ktx2`.

The development shallowly embeds the assembly pipeline shared by
`KTX2Assembler` (src/renderer-webgl.js) and `ImagesToKtxSequential`
(the unnamed sequential encoder module): parsed per-layer KTX2
containers are validated for consistency, their mip levels are
concatenated layer-major within each mip (with trimming and 8-byte
padding for supercompression scheme "none"), and a final array
container is produced.  Byte buffers are modelled as `List Nat`,
JavaScript numbers as `Nat`, thrown exceptions as `Except` errors, and
the observable side effects needed by the claims (entering the
assembler, allocating a combined buffer, invoking the opaque Basis
encoder) as an explicit event trace.
-/

/-- One mip level of one layer, as extracted from a parsed KTX2
container: the compressed payload bytes and the declared uncompressed
byte length. -/
structure MipLevel where
  levelData : List Nat
  uncompressedByteLength : Nat
  deriving DecidableEq

/-- One assembled mip level of the output array texture. -/
structure CombinedLevel where
  levelData : List Nat
  uncompressedByteLength : Nat
  deriving DecidableEq

/-- One fully encoded layer as pushed onto `encodedLayers` by the
pipeline: its mip levels plus the header fields kept for bookkeeping. -/
structure EncodedLayer where
  levels : List MipLevel
  format : Nat
  width : Nat
  height : Nat
  deriving DecidableEq

/-- A parsed single-layer KTX2 container (the result of `read`), at the
field level the pipeline touches.  `keyValue` is `none` when the
container has no key/value block (JS falsy); the key/value payload and
the data-format descriptor are opaque to the assembler and modelled as
`Nat` tokens. -/
structure KtxContainer where
  vkFormat : Nat
  typeSize : Nat
  pixelWidth : Nat
  pixelHeight : Nat
  supercompressionScheme : Nat
  keyValue : Option Nat
  dataFormatDescriptor : Nat
  levels : List MipLevel
  deriving DecidableEq

/-- Base parameters extracted from the first layer's container by
`_extractBaseParams`. -/
structure BaseParams where
  baseFormat : Nat
  baseWidth : Nat
  baseHeight : Nat
  baseSupercompression : Nat
  baseKeyValue : Option Nat
  baseTypeSize : Nat
  sharedDfd : Nat
  firstLayerMipCount : Nat
  deriving DecidableEq

/-- The final KTX2 array container built by `_createArrayContainer`. -/
structure KtxArrayContainer where
  vkFormat : Nat
  typeSize : Nat
  pixelWidth : Nat
  pixelHeight : Nat
  pixelDepth : Nat
  layerCount : Nat
  faceCount : Nat
  levelCount : Nat
  supercompressionScheme : Nat
  levels : List CombinedLevel
  dataFormatDescriptor : Nat
  keyValue : Nat
  globalData : Option Nat
  deriving DecidableEq

/-- A consistency failure thrown by `_validateLayerConsistency`,
carrying the 0-based layer index and the expected/actual values the
thrown message interpolates. -/
inductive ConsErr
  | formatMismatch (layerIndex expected got : Nat)
  | sizeMismatch (layerIndex expectedW expectedH gotW gotH : Nat)
  | mipMismatch (layerIndex expected got : Nat)
  deriving DecidableEq

/-- Errors of the assembly pipeline.  `typeError` stands for the
JavaScript TypeError raised when a property of `null`/`undefined` is
read; `rangeError` for the RangeError `TypedArray.set` raises on an
out-of-bounds write; `noUrlsError` for the explicit empty-URL guard. -/
inductive AsmError
  | consistency (e : ConsErr)
  | typeError
  | rangeError
  | noUrlsError
  deriving DecidableEq

/-- Observable steps of the pipeline: the assembler being entered,
a combined mip buffer of a given size being allocated, and the opaque
Basis encoder being invoked. -/
inductive Event
  | assembleStart
  | allocCombined (size : Nat)
  | encoderInvoked (idx : Nat)
  deriving DecidableEq

/-- Embeds `_extractBaseParams(container)`. -/
def extractBaseParams (container : KtxContainer) : BaseParams :=
  { baseFormat := container.vkFormat
    baseWidth := container.pixelWidth
    baseHeight := container.pixelHeight
    baseSupercompression := container.supercompressionScheme
    baseKeyValue := container.keyValue
    baseTypeSize := container.typeSize
    sharedDfd := container.dataFormatDescriptor
    firstLayerMipCount := container.levels.length }

/-- Embeds `_validateLayerConsistency(container, baseParams, layerIndex)`:
the three checks in source order, each throwing a `ConsErr`. -/
def validateLayerConsistency (container : KtxContainer) (baseParams : BaseParams)
    (layerIndex : Nat) : Except ConsErr Unit :=
  if baseParams.baseFormat ≠ 0 ∧ container.vkFormat ≠ 0 ∧
      container.vkFormat ≠ baseParams.baseFormat then
    .error (.formatMismatch layerIndex baseParams.baseFormat container.vkFormat)
  else if container.pixelWidth ≠ baseParams.baseWidth ∨
      container.pixelHeight ≠ baseParams.baseHeight then
    .error (.sizeMismatch layerIndex baseParams.baseWidth baseParams.baseHeight
      container.pixelWidth container.pixelHeight)
  else if container.levels.length ≠ baseParams.firstLayerMipCount then
    .error (.mipMismatch layerIndex baseParams.firstLayerMipCount container.levels.length)
  else
    .ok ()

/-- Embeds `uastcBytesPerImageAtLevel(level, width, height)`: expected UASTC
payload size of one layer at one mip — `Math.max(1, width >> level)` by
`Math.max(1, height >> level)` pixels, in 4×4 blocks of 16 bytes. -/
def uastcBytesPerImageAtLevel (level width height : Nat) : Nat :=
  let wL := max 1 (width >>> level)
  let hL := max 1 (height >>> level)
  let blocksX := (wL + 3) / 4
  let blocksY := (hL + 3) / 4
  blocksX * blocksY * 16

/-- Embeds `pad8(n)`: bytes needed to reach the next 8-byte boundary. -/
def pad8 (n : Nat) : Nat := (8 - n % 8) % 8

/-- Models `Uint8Array.prototype.set(src, off)` on a buffer modelled as a
list: the write succeeds only when the source fits, otherwise a
RangeError (`none`) results. -/
def writeAt (dest src : List Nat) (off : Nat) : Option (List Nat) :=
  if off + src.length ≤ dest.length then
    some (dest.take off ++ src ++ dest.drop (off + src.length))
  else
    none

/-- The layer-concatenation loop of `_assembleMipLevels` for one mip:
walks `layersForThisMip` threading the combined buffer and the running
offset.  For scheme "none" (0) the source is trimmed to `exactSize`
(`subarray` clamps to the source length) and the offset additionally
advances over the padding; otherwise the bytes are copied verbatim. -/
def copyLayers (scheme exactSize perImagePadding : Nat) :
    List MipLevel → List Nat → Nat → Option (List Nat × Nat)
  | [], combined, offset => some (combined, offset)
  | levelData :: rest, combined, offset =>
    let srcData := levelData.levelData
    if scheme = 0 then
      let trimmed := srcData.take exactSize
      match writeAt combined trimmed offset with
      | none => none
      | some c => copyLayers scheme exactSize perImagePadding rest c
          (offset + trimmed.length + perImagePadding)
    else
      match writeAt combined srcData offset with
      | none => none
      | some c => copyLayers scheme exactSize perImagePadding rest c
          (offset + srcData.length)

/-- Embeds `encodedLayers.map(layer => layer.levels[mipLevel])`, failing with
a TypeError (`none`) as soon as a layer lacks that mip (the JS map
yields `undefined`, whose `.levelData` read then throws). -/
def gatherMip : List EncodedLayer → Nat → Option (List MipLevel)
  | [], _ => some []
  | layer :: rest, mipLevel =>
    match layer.levels[mipLevel]? with
    | none => none
    | some lv =>
      match gatherMip rest mipLevel with
      | none => none
      | some ls => some (lv :: ls)

/-- The body of `_assembleMipLevels` for one `mipLevel`: computes the
exact size and padding, the total allocation, zero-fills the combined
buffer and runs the concatenation loop; also reports the allocation it
performed. -/
def assembleOneMip (baseWidth baseHeight baseSupercompression layerCount : Nat)
    (encodedLayers : List EncodedLayer) (mipLevel : Nat) :
    Except AsmError CombinedLevel × List Event :=
  match gatherMip encodedLayers mipLevel with
  | none => (.error .typeError, [])
  | some layersForThisMip =>
    let exactSize := uastcBytesPerImageAtLevel mipLevel baseWidth baseHeight
    let perImagePadding := pad8 exactSize
    let perImageWithPad := exactSize + perImagePadding
    let totalSize := if baseSupercompression = 0
      then perImageWithPad * layerCount
      else (layersForThisMip.map (fun l => l.levelData.length)).sum
    match copyLayers baseSupercompression exactSize perImagePadding layersForThisMip
        (List.replicate totalSize 0) 0 with
    | none => (.error .rangeError, [.allocCombined totalSize])
    | some (combined, _offset) =>
      let totalUncompressed := if baseSupercompression = 0
        then totalSize
        else (layersForThisMip.map (fun l => l.uncompressedByteLength)).sum
      (.ok ⟨combined, totalUncompressed⟩, [.allocCombined totalSize])

/-- The `for (let mipLevel = 0; ...)` loop of `_assembleMipLevels`,
over the given list of mip indices. -/
def assembleMips (baseWidth baseHeight baseSupercompression layerCount : Nat)
    (encodedLayers : List EncodedLayer) :
    List Nat → Except AsmError (List CombinedLevel) × List Event
  | [] => (.ok [], [])
  | m :: ms =>
    match assembleOneMip baseWidth baseHeight baseSupercompression layerCount
        encodedLayers m with
    | (.error e, evs) => (.error e, evs)
    | (.ok cl, evs) =>
      match assembleMips baseWidth baseHeight baseSupercompression layerCount
          encodedLayers ms with
      | (.error e, evs') => (.error e, evs ++ evs')
      | (.ok cls, evs') => (.ok (cl :: cls), evs ++ evs')

/-- Embeds `_assembleMipLevels(encodedLayers, baseParams)`.  Destructuring a
`null` `baseParams` throws a TypeError, as does reading
`encodedLayers[0].levels.length` on an empty list. -/
def assembleMipLevels (encodedLayers : List EncodedLayer) (baseParams : Option BaseParams) :
    Except AsmError (List CombinedLevel) × List Event :=
  match baseParams with
  | none => (.error .typeError, [])
  | some bp =>
    match encodedLayers with
    | [] => (.error .typeError, [])
    | first :: _ =>
      assembleMips bp.baseWidth bp.baseHeight bp.baseSupercompression
        encodedLayers.length encodedLayers (List.range first.levels.length)

/-- The record pushed onto `encodedLayers` for one parsed container. -/
def layerOf (container : KtxContainer) : EncodedLayer :=
  { levels := container.levels.map (fun level =>
      ⟨level.levelData, level.uncompressedByteLength⟩)
    format := container.vkFormat
    width := container.pixelWidth
    height := container.pixelHeight }

/-- The per-layer loop of `KTX2Assembler.encode`: the first container
fixes the base parameters, every later one is validated against them;
each container's mip levels are collected in arrival order. -/
def collectLayers : List KtxContainer → Nat → Option BaseParams → List EncodedLayer →
    Except AsmError (Option BaseParams × List EncodedLayer)
  | [], _, baseParams, acc => .ok (baseParams, acc.reverse)
  | container :: rest, layerIndex, baseParams, acc =>
    match baseParams with
    | none =>
      collectLayers rest (layerIndex + 1) (some (extractBaseParams container))
        (layerOf container :: acc)
    | some bp =>
      match validateLayerConsistency container bp layerIndex with
      | .error e => .error (.consistency e)
      | .ok _ =>
        collectLayers rest (layerIndex + 1) (some bp) (layerOf container :: acc)

/-- Embeds `_createArrayContainer(encodedLayers, baseParams, combinedLevels)`. -/
def createArrayContainer (encodedLayers : List EncodedLayer) (baseParams : BaseParams)
    (combinedLevels : List CombinedLevel) : KtxArrayContainer :=
  { vkFormat := baseParams.baseFormat
    typeSize := baseParams.baseTypeSize
    pixelWidth := baseParams.baseWidth
    pixelHeight := baseParams.baseHeight
    pixelDepth := 0
    layerCount := encodedLayers.length
    faceCount := 1
    levelCount := combinedLevels.length
    supercompressionScheme := baseParams.baseSupercompression
    levels := combinedLevels
    dataFormatDescriptor := baseParams.sharedDfd
    keyValue := baseParams.baseKeyValue.getD 0
    globalData := none }

/-- Embeds `KTX2Assembler.encode` after the opaque per-layer encoding and
parsing: validate-and-collect every container in order, then assemble
the combined mip levels and build the array container.  The event
trace records when the assembler stage is entered and what it
allocates. -/
def encodePipeline (containers : List KtxContainer) :
    Except AsmError KtxArrayContainer × List Event :=
  match collectLayers containers 0 none [] with
  | .error e => (.error e, [])
  | .ok (baseParams, encodedLayers) =>
    match assembleMipLevels encodedLayers baseParams, baseParams with
    | (.error e, evs), _ => (.error e, Event.assembleStart :: evs)
    | (.ok combinedLevels, evs), some bp =>
      (.ok (createArrayContainer encodedLayers bp combinedLevels),
        Event.assembleStart :: evs)
    | (.ok _, evs), none => (.error .typeError, Event.assembleStart :: evs)

/-- One `{data, fileName, extension}` record yielded by the image
generator in `fromImageUrls` / `encodeFromUrls`. -/
structure ImageLayer where
  data : List Nat
  fileName : String
  extension : String
  deriving DecidableEq

/-- Embeds the fileName computation: last URL path segment, with a
numbered default when empty. -/
def jsFileNameOf (url : String) (i : Nat) : String :=
  let fileName := (url.splitOn "/").getLastD ""
  if fileName = "" then "image" ++ toString i else fileName

/-- Embeds the extension computation: last dot-separated segment of
the file name, defaulting to jpg when empty. -/
def jsExtensionOf (fileName : String) : String :=
  let extension := (fileName.splitOn ".").getLastD ""
  if extension = "" then "jpg" else extension

/-- The record yielded for URL index `i`, with its fetched bytes. -/
def mkImageLayer (fetchFn : String → List Nat) (url : String) (i : Nat) : ImageLayer :=
  { data := fetchFn url
    fileName := jsFileNameOf url i
    extension := jsExtensionOf (jsFileNameOf url i) }

/-- The loop body of the pipelined `imageGenerator`: the current URL's
already-started fetch is awaited, the next URL's fetch is started (one
lookahead), and the record is yielded.  In this pure model a started
fetch is its resolved value. -/
def pipelinedGo (fetchFn : String → List Nat) :
    String → List Nat → List String → Nat → List ImageLayer
  | url, prefetched, [], i =>
    [{ data := prefetched
       fileName := jsFileNameOf url i
       extension := jsExtensionOf (jsFileNameOf url i) }]
  | url, prefetched, url' :: rest', i =>
    { data := prefetched
      fileName := jsFileNameOf url i
      extension := jsExtensionOf (jsFileNameOf url i) } ::
    pipelinedGo fetchFn url' (fetchFn url') rest' (i + 1)

/-- Everything the pipelined `imageGenerator` of `fromImageUrls` /
`encodeFromUrls` yields, in order: the first URL's fetch is started
before the loop, then `pipelinedGo` runs the lookahead loop. -/
def pipelinedYields (fetchFn : String → List Nat) (urls : List String) : List ImageLayer :=
  match urls with
  | [] => []
  | url :: rest => pipelinedGo fetchFn url (fetchFn url) rest 0

/-- Modelled from the spec: the eager LayerSource mode, in which every
input is fetched up front and the records are produced in input order
(§4.4 "Eager: all inputs fetched/encoded up front, then assembled").
There is no eager URL implementation in the source; this definition
follows the spec's words and is compared with the pipelined one. -/
def eagerYields (fetchFn : String → List Nat) (urls : List String) : List ImageLayer :=
  urls.enum.map (fun p => mkImageLayer fetchFn p.2 p.1)

/-- The shared tail of `KTX2Assembler.encode` on an image-layer source:
each yielded record is encoded by the opaque Encoder collaborator and
parsed (together `encoderFn`), and the resulting containers run
through the assembly pipeline. -/
def encodeFromLayerSource (encoderFn : ImageLayer → KtxContainer)
    (layers : List ImageLayer) : Except AsmError KtxArrayContainer × List Event :=
  encodePipeline (layers.map encoderFn)

/-- Embeds `KTX2Assembler.fromImageUrls(urls)`: the explicit empty-URL guard,
then the pipelined generator feeding the shared encode logic. -/
def fromImageUrls (fetchFn : String → List Nat) (encoderFn : ImageLayer → KtxContainer)
    (urls : List String) : Except AsmError KtxArrayContainer × List Event :=
  if urls.length = 0 then (.error .noUrlsError, [])
  else encodeFromLayerSource encoderFn (pipelinedYields fetchFn urls)

/-- One input record of `encodeImagesToKtxArray` (images_to_ktx.js):
`data` is `none` when the field is missing/falsy. -/
structure InputLayer where
  data : Option (List Nat)
  fileName : Option String
  extension : String
  deriving DecidableEq

/-- Errors of `encodeImagesToKtxArray`. -/
inductive ImgErr
  | inputError
  | missingData (idx : Nat)
  | hdrUnsupported
  | encodeFailed
  deriving DecidableEq

/-- A normalized layer record of `encodeImagesToKtxArray`. -/
structure NormLayer where
  data : List Nat
  fileName : String
  ext : String
  deriving DecidableEq

/-- Embeds `getFileExtension` plus the per-layer normalization of
`encodeImagesToKtxArray`: missing `data` and HDR extensions throw. -/
def normalizeLayers : List InputLayer → Nat → Except ImgErr (List NormLayer)
  | [], _ => .ok []
  | l :: rest, idx =>
    match l.data with
    | none => .error (.missingData idx)
    | some d =>
      let ext := l.extension.toLower
      if ext = "exr" ∨ ext = "hdr" then .error .hdrUnsupported
      else
        match normalizeLayers rest (idx + 1) with
        | .error e => .error e
        | .ok ns => .ok (⟨d, l.fileName.getD ("layer_" ++ toString idx), ext⟩ :: ns)

/-- Embeds `encodeImagesToKtxArray(layers)` (images_to_ktx.js): rejects an
empty layer list up front with the `No input layers provided`
InputError, otherwise normalizes the inputs and invokes the opaque
multi-slice Basis encoder once (`basisEncoder.encode`), recorded as an
`encoderInvoked` event. -/
def encodeImagesToKtxArray (basisEncodeFn : List NormLayer → Option (List Nat))
    (layers : List InputLayer) : Except ImgErr (List Nat) × List Event :=
  if layers.length = 0 then (.error .inputError, [])
  else
    match normalizeLayers layers 0 with
    | .error e => (.error e, [])
    | .ok normalized =>
      match basisEncodeFn normalized with
      | none => (.error .encodeFailed, [.encoderInvoked 0])
      | some bytes => (.ok bytes, [.encoderInvoked 0])

/-- The amount the running offset advances for one layer in the
`_assembleMipLevels` concatenation loop: the trimmed length plus the
padding for scheme "none", the verbatim length otherwise. -/
def slotAdvance (scheme exactSize perImagePadding : Nat) (l : MipLevel) : Nat :=
  if scheme = 0 then min exactSize l.levelData.length + perImagePadding
  else l.levelData.length

/-- The running offset at which layer `i`'s data is written inside a
combined mip buffer: the sum of the advances of the layers before it. -/
def layerOffset (scheme exactSize perImagePadding : Nat) (ls : List MipLevel) (i : Nat) : Nat :=
  ((ls.take i).map (slotAdvance scheme exactSize perImagePadding)).sum

/-- Modelled from the spec: the exact-size formula
`ceil(width_at_mip/4) * ceil(height_at_mip/4) * 16` with
`width_at_mip = max(1, baseWidth >> m)`, written with natural-number
division (`x >> m` of a non-negative value is division by `2 ^ m`). -/
def specExactSize (m width height : Nat) : Nat :=
  (max 1 (width / 2 ^ m) + 3) / 4 * ((max 1 (height / 2 ^ m) + 3) / 4) * 16

/-- Whether a consistency error is the format-mismatch one. -/
def ConsErr.isFormatMismatch : ConsErr → Bool
  | .formatMismatch _ _ _ => true
  | _ => false

/-- Whether an assembly result is a success. -/
def resultIsOk : Except AsmError KtxArrayContainer → Bool
  | .ok _ => true
  | .error _ => false

/-- Predicate: `consErrAbout base c i e` states that `e` reports layer index `i`
together with the expected values from `base` and the actual values
from the offending container `c`. -/
def consErrAbout (base : BaseParams) (c : KtxContainer) (i : Nat) : ConsErr → Prop
  | .formatMismatch j e g => j = i ∧ e = base.baseFormat ∧ g = c.vkFormat
  | .sizeMismatch j ew eh gw gh =>
      j = i ∧ ew = base.baseWidth ∧ eh = base.baseHeight ∧
      gw = c.pixelWidth ∧ gh = c.pixelHeight
  | .mipMismatch j e g => j = i ∧ e = base.firstLayerMipCount ∧ g = c.levels.length

/-- The slot emitted for one layer under scheme "none": the payload
trimmed to the exact size followed by the padding zeros. -/
def noneSlot (exactSize perImagePadding : Nat) (l : MipLevel) : List Nat :=
  l.levelData.take exactSize ++ List.replicate perImagePadding 0

theorem writeAt_length {dest src d : List Nat} {off : Nat}
    (h : writeAt dest src off = some d) : d.length = dest.length := by
  unfold writeAt at h
  split at h
  · next hle =>
    cases h
    simp only [List.length_append, List.length_take, List.length_drop]
    omega
  · exact absurd h (by simp)

theorem writeAt_into_zeros (acc src : List Nat) (zlen : Nat)
    (h : src.length ≤ zlen) :
    writeAt (acc ++ List.replicate zlen 0) src acc.length
      = some (acc ++ src ++ List.replicate (zlen - src.length) 0) := by
  unfold writeAt
  rw [if_pos (by simp only [List.length_append, List.length_replicate]; omega)]
  rw [List.take_left, List.drop_append, List.drop_replicate]

theorem copyLayers_cons_zero (exactSize perImagePadding : Nat) (l : MipLevel)
    (rest : List MipLevel) (combined : List Nat) (offset : Nat) :
    copyLayers 0 exactSize perImagePadding (l :: rest) combined offset
      = match writeAt combined (l.levelData.take exactSize) offset with
        | none => none
        | some c => copyLayers 0 exactSize perImagePadding rest c
            (offset + (l.levelData.take exactSize).length + perImagePadding) := by
  rfl

theorem copyLayers_cons_ne (scheme exactSize perImagePadding : Nat)
    (hs : scheme ≠ 0) (l : MipLevel) (rest : List MipLevel)
    (combined : List Nat) (offset : Nat) :
    copyLayers scheme exactSize perImagePadding (l :: rest) combined offset
      = match writeAt combined l.levelData offset with
        | none => none
        | some c => copyLayers scheme exactSize perImagePadding rest c
            (offset + l.levelData.length) := by
  simp only [copyLayers, if_neg hs]

theorem copyLayers_cons_zero_write (exactSize perImagePadding : Nat) (l : MipLevel)
    (rest : List MipLevel) (combined c : List Nat) (offset : Nat)
    (hw : writeAt combined (l.levelData.take exactSize) offset = some c) :
    copyLayers 0 exactSize perImagePadding (l :: rest) combined offset
      = copyLayers 0 exactSize perImagePadding rest c
          (offset + (l.levelData.take exactSize).length + perImagePadding) := by
  rw [copyLayers_cons_zero, hw]

theorem copyLayers_cons_ne_write (scheme exactSize perImagePadding : Nat)
    (hs : scheme ≠ 0) (l : MipLevel) (rest : List MipLevel)
    (combined c : List Nat) (offset : Nat)
    (hw : writeAt combined l.levelData offset = some c) :
    copyLayers scheme exactSize perImagePadding (l :: rest) combined offset
      = copyLayers scheme exactSize perImagePadding rest c
          (offset + l.levelData.length) := by
  rw [copyLayers_cons_ne _ _ _ hs, hw]

theorem copyLayers_none_eq_join (exactSize perImagePadding : Nat) :
    ∀ (ls : List MipLevel) (acc : List Nat),
    (∀ l ∈ ls, exactSize ≤ l.levelData.length) →
    copyLayers 0 exactSize perImagePadding ls
        (acc ++ List.replicate ((exactSize + perImagePadding) * ls.length) 0) acc.length
      = some (acc ++ (ls.map (noneSlot exactSize perImagePadding)).flatten,
              acc.length + (exactSize + perImagePadding) * ls.length) := by
  intro ls
  induction ls with
  | nil => intro acc _; simp [copyLayers]
  | cons l rest ih =>
    intro acc hlen
    have hl : exactSize ≤ l.levelData.length := hlen l (by simp)
    have htrim : (l.levelData.take exactSize).length = exactSize := by
      simp only [List.length_take]; omega
    have hz : (exactSize + perImagePadding) * (l :: rest).length
        = exactSize + (perImagePadding + (exactSize + perImagePadding) * rest.length) := by
      simp only [List.length_cons, Nat.mul_succ]; ring
    rw [hz, copyLayers_cons_zero_write _ _ _ _ _ _ _
        (writeAt_into_zeros acc (l.levelData.take exactSize) _ (by rw [htrim]; omega)),
      htrim]
    have hsub : exactSize + (perImagePadding + (exactSize + perImagePadding) * rest.length)
        - exactSize = perImagePadding + (exactSize + perImagePadding) * rest.length := by
      omega
    rw [hsub, List.replicate_add, ← List.append_assoc]
    have hacc : (acc ++ l.levelData.take exactSize
        ++ List.replicate perImagePadding 0).length
        = acc.length + exactSize + perImagePadding := by
      simp only [List.length_append, List.length_replicate, htrim]
    rw [show acc.length + exactSize + perImagePadding
      = (acc ++ l.levelData.take exactSize ++ List.replicate perImagePadding 0).length
      from hacc.symm]
    rw [ih (acc ++ l.levelData.take exactSize ++ List.replicate perImagePadding 0)
      (fun x hx => hlen x (List.mem_cons_of_mem _ hx))]
    simp only [Option.some.injEq, Prod.mk.injEq]
    refine ⟨?_, ?_⟩
    · simp [noneSlot, List.append_assoc]
    · rw [hacc]; omega

theorem copyLayers_verbatim_eq_join (scheme exactSize perImagePadding : Nat)
    (hs : scheme ≠ 0) :
    ∀ (ls : List MipLevel) (acc : List Nat),
    copyLayers scheme exactSize perImagePadding ls
        (acc ++ List.replicate ((ls.map (fun l => l.levelData.length)).sum) 0) acc.length
      = some (acc ++ (ls.map (fun l => l.levelData)).flatten,
              acc.length + (ls.map (fun l => l.levelData.length)).sum) := by
  intro ls
  induction ls with
  | nil => intro acc; simp [copyLayers]
  | cons l rest ih =>
    intro acc
    have hsum : ((l :: rest).map (fun l => l.levelData.length)).sum
        = l.levelData.length + ((rest.map (fun l => l.levelData.length)).sum) := by
      simp
    rw [hsum, copyLayers_cons_ne_write _ _ _ hs _ _ _ _ _
        (writeAt_into_zeros acc l.levelData _ (by omega))]
    have hsub : l.levelData.length + (rest.map (fun l => l.levelData.length)).sum
        - l.levelData.length = (rest.map (fun l => l.levelData.length)).sum := by
      omega
    rw [hsub]
    have hacc : (acc ++ l.levelData).length = acc.length + l.levelData.length := by
      simp
    rw [show acc.length + l.levelData.length = (acc ++ l.levelData).length
      from hacc.symm]
    rw [show acc ++ l.levelData ++ List.replicate
          ((rest.map (fun l => l.levelData.length)).sum) 0
        = (acc ++ l.levelData) ++ List.replicate
          ((rest.map (fun l => l.levelData.length)).sum) 0 from rfl]
    rw [ih (acc ++ l.levelData)]
    simp only [Option.some.injEq, Prod.mk.injEq]
    refine ⟨?_, ?_⟩
    · simp [List.append_assoc]
    · rw [hacc]; omega

theorem copyLayers_final_offset (scheme exactSize perImagePadding : Nat) :
    ∀ (ls : List MipLevel) (combined : List Nat) (offset : Nat)
      (combined' : List Nat) (offset' : Nat),
    copyLayers scheme exactSize perImagePadding ls combined offset
      = some (combined', offset') →
    offset' = offset + (ls.map (slotAdvance scheme exactSize perImagePadding)).sum := by
  intro ls
  induction ls with
  | nil =>
    intro combined offset c' o' h
    simp [copyLayers] at h
    simp [h.2.symm]
  | cons l rest ih =>
    intro combined offset c' o' h
    by_cases hsch : scheme = 0
    · subst hsch
      rw [copyLayers_cons_zero] at h
      cases hw : writeAt combined (l.levelData.take exactSize) offset with
      | none => rw [hw] at h; exact absurd h (by simp)
      | some c =>
        rw [hw] at h
        have := ih c _ _ _ h
        have hadv : slotAdvance 0 exactSize perImagePadding l
            = min exactSize l.levelData.length + perImagePadding := by
          simp [slotAdvance]
        simp only [List.length_take] at this
        simp only [List.map_cons, List.sum_cons, hadv]
        omega
    · rw [copyLayers_cons_ne _ _ _ hsch] at h
      cases hw : writeAt combined l.levelData offset with
      | none => rw [hw] at h; exact absurd h (by simp)
      | some c =>
        rw [hw] at h
        have := ih c _ _ _ h
        simp only [List.map_cons, List.sum_cons, slotAdvance, if_neg hsch] at this ⊢
        omega

theorem copyLayers_some_of_le (scheme exactSize perImagePadding : Nat) :
    ∀ (ls : List MipLevel) (combined : List Nat) (offset : Nat),
    offset + (ls.map (slotAdvance scheme exactSize perImagePadding)).sum
      ≤ combined.length →
    ∃ combined', copyLayers scheme exactSize perImagePadding ls combined offset
        = some (combined',
            offset + (ls.map (slotAdvance scheme exactSize perImagePadding)).sum)
      ∧ combined'.length = combined.length := by
  intro ls
  induction ls with
  | nil =>
    intro combined offset _
    exact ⟨combined, by simp [copyLayers], rfl⟩
  | cons l rest ih =>
    intro combined offset hle
    by_cases hsch : scheme = 0
    · subst hsch
      have hadv : slotAdvance 0 exactSize perImagePadding l
          = min exactSize l.levelData.length + perImagePadding := by
        simp [slotAdvance]
      have htrim : (l.levelData.take exactSize).length
          = min exactSize l.levelData.length := by
        simp [List.length_take]
      have hwle : offset + (l.levelData.take exactSize).length ≤ combined.length := by
        simp only [List.map_cons, List.sum_cons, hadv] at hle
        omega
      have hw : writeAt combined (l.levelData.take exactSize) offset
          = some (combined.take offset ++ l.levelData.take exactSize
            ++ combined.drop (offset + (l.levelData.take exactSize).length)) := by
        unfold writeAt
        rw [if_pos hwle]
      set c := combined.take offset ++ l.levelData.take exactSize
        ++ combined.drop (offset + (l.levelData.take exactSize).length) with hc
      have hclen : c.length = combined.length := writeAt_length hw
      obtain ⟨c', hrec, hlen'⟩ := ih c
        (offset + (l.levelData.take exactSize).length + perImagePadding)
        (by
          simp only [List.map_cons, List.sum_cons, hadv] at hle
          rw [hclen, htrim]
          omega)
      refine ⟨c', ?_, by rw [hlen', hclen]⟩
      rw [copyLayers_cons_zero_write _ _ _ _ _ _ _ hw, hrec]
      simp only [Option.some.injEq, Prod.mk.injEq, true_and]
      simp only [List.map_cons, List.sum_cons, hadv, htrim]
      omega
    · have hadv : slotAdvance scheme exactSize perImagePadding l
          = l.levelData.length := by
        simp [slotAdvance, hsch]
      have hwle : offset + l.levelData.length ≤ combined.length := by
        simp only [List.map_cons, List.sum_cons, hadv] at hle
        omega
      have hw : writeAt combined l.levelData offset
          = some (combined.take offset ++ l.levelData
            ++ combined.drop (offset + l.levelData.length)) := by
        unfold writeAt
        rw [if_pos hwle]
      set c := combined.take offset ++ l.levelData
        ++ combined.drop (offset + l.levelData.length) with hc
      have hclen : c.length = combined.length := writeAt_length hw
      obtain ⟨c', hrec, hlen'⟩ := ih c (offset + l.levelData.length)
        (by
          simp only [List.map_cons, List.sum_cons, hadv] at hle
          rw [hclen]
          omega)
      refine ⟨c', ?_, by rw [hlen', hclen]⟩
      rw [copyLayers_cons_ne_write _ _ _ hsch _ _ _ _ _ hw, hrec]
      simp only [Option.some.injEq, Prod.mk.injEq, true_and]
      simp only [List.map_cons, List.sum_cons, hadv]
      omega

theorem sum_slotAdvance_none_le (exactSize perImagePadding : Nat) :
    ∀ ls : List MipLevel,
    (ls.map (slotAdvance 0 exactSize perImagePadding)).sum
      ≤ (exactSize + perImagePadding) * ls.length := by
  intro ls
  induction ls with
  | nil => simp
  | cons l rest ih =>
    simp only [List.map_cons, List.sum_cons, List.length_cons, Nat.mul_succ]
    have hadv : slotAdvance 0 exactSize perImagePadding l
        = min exactSize l.levelData.length + perImagePadding := by
      simp [slotAdvance]
    have hmin := Nat.min_le_left exactSize l.levelData.length
    omega

theorem sum_slotAdvance_verbatim (scheme exactSize perImagePadding : Nat)
    (hs : scheme ≠ 0) (ls : List MipLevel) :
    (ls.map (slotAdvance scheme exactSize perImagePadding)).sum
      = (ls.map (fun l => l.levelData.length)).sum := by
  induction ls with
  | nil => simp
  | cons l rest ih =>
    simp only [List.map_cons, List.sum_cons, slotAdvance, if_neg hs, ih]

theorem uastc_ge_sixteen (level width height : Nat) :
    16 ≤ uastcBytesPerImageAtLevel level width height := by
  unfold uastcBytesPerImageAtLevel
  have hw : 1 ≤ (max 1 (width >>> level) + 3) / 4 := by
    have : 4 ≤ max 1 (width >>> level) + 3 := by
      have := Nat.le_max_left 1 (width >>> level)
      omega
    omega
  have hh : 1 ≤ (max 1 (height >>> level) + 3) / 4 := by
    have : 4 ≤ max 1 (height >>> level) + 3 := by
      have := Nat.le_max_left 1 (height >>> level)
      omega
    omega
  calc 16 = 1 * 1 * 16 := by ring
  _ ≤ (max 1 (width >>> level) + 3) / 4 * ((max 1 (height >>> level) + 3) / 4) * 16 := by
      exact Nat.mul_le_mul_right 16 (Nat.mul_le_mul hw hh)

theorem gatherMip_length :
    ∀ (ls : List EncodedLayer) (m : Nat) (r : List MipLevel),
    gatherMip ls m = some r → r.length = ls.length := by
  intro ls
  induction ls with
  | nil => intro m r h; simp [gatherMip] at h; simp [h.symm]
  | cons l rest ih =>
    intro m r h
    unfold gatherMip at h
    cases hl : l.levels[m]? with
    | none => rw [hl] at h; exact absurd h (by simp)
    | some lv =>
      rw [hl] at h
      cases hg : gatherMip rest m with
      | none => rw [hg] at h; exact absurd h (by simp)
      | some ls' =>
        rw [hg] at h
        cases h
        simp [ih m ls' hg]

theorem assembleOneMip_zero_eq (baseWidth baseHeight layerCount : Nat)
    (encodedLayers : List EncodedLayer) (mipLevel : Nat) (ls : List MipLevel)
    (hg : gatherMip encodedLayers mipLevel = some ls) :
    assembleOneMip baseWidth baseHeight 0 layerCount encodedLayers mipLevel
      = (match copyLayers 0 (uastcBytesPerImageAtLevel mipLevel baseWidth baseHeight)
            (pad8 (uastcBytesPerImageAtLevel mipLevel baseWidth baseHeight)) ls
            (List.replicate ((uastcBytesPerImageAtLevel mipLevel baseWidth baseHeight
              + pad8 (uastcBytesPerImageAtLevel mipLevel baseWidth baseHeight))
                * layerCount) 0) 0 with
         | none => (.error .rangeError,
             [.allocCombined ((uastcBytesPerImageAtLevel mipLevel baseWidth baseHeight
               + pad8 (uastcBytesPerImageAtLevel mipLevel baseWidth baseHeight))
                 * layerCount)])
         | some (combined, _offset) =>
             (.ok ⟨combined, (uastcBytesPerImageAtLevel mipLevel baseWidth baseHeight
               + pad8 (uastcBytesPerImageAtLevel mipLevel baseWidth baseHeight))
                 * layerCount⟩,
              [.allocCombined ((uastcBytesPerImageAtLevel mipLevel baseWidth baseHeight
                + pad8 (uastcBytesPerImageAtLevel mipLevel baseWidth baseHeight))
                  * layerCount)])) := by
  unfold assembleOneMip
  rw [hg]
  rfl

theorem assembleOneMip_ne_eq (baseWidth baseHeight scheme layerCount : Nat)
    (hs : scheme ≠ 0) (encodedLayers : List EncodedLayer) (mipLevel : Nat)
    (ls : List MipLevel) (hg : gatherMip encodedLayers mipLevel = some ls) :
    assembleOneMip baseWidth baseHeight scheme layerCount encodedLayers mipLevel
      = (match copyLayers scheme
            (uastcBytesPerImageAtLevel mipLevel baseWidth baseHeight)
            (pad8 (uastcBytesPerImageAtLevel mipLevel baseWidth baseHeight)) ls
            (List.replicate ((ls.map (fun l => l.levelData.length)).sum) 0) 0 with
         | none => (.error .rangeError,
             [.allocCombined ((ls.map (fun l => l.levelData.length)).sum)])
         | some (combined, _offset) =>
             (.ok ⟨combined, (ls.map (fun l => l.uncompressedByteLength)).sum⟩,
              [.allocCombined ((ls.map (fun l => l.levelData.length)).sum)])) := by
  unfold assembleOneMip
  rw [hg]
  simp only [if_neg hs]

theorem flatten_noneSlot_length (exactSize perImagePadding : Nat) :
    ∀ ls : List MipLevel,
    (∀ l ∈ ls, exactSize ≤ l.levelData.length) →
    ((ls.map (noneSlot exactSize perImagePadding)).flatten).length
      = ls.length * (exactSize + perImagePadding) := by
  intro ls
  induction ls with
  | nil => intro _; simp
  | cons l rest ih =>
    intro h
    have hl : exactSize ≤ l.levelData.length := h l (by simp)
    have := ih (fun x hx => h x (List.mem_cons_of_mem _ hx))
    simp only [List.map_cons, List.flatten_cons, List.length_append, this,
      noneSlot, List.length_append, List.length_take, List.length_replicate,
      List.length_cons, Nat.succ_mul]
    omega

/-- C2.  The assembler's per-layer exact-size helper agrees with the
spec's derivation rule `ceil(max(1, baseWidth >> m)/4) *
ceil(max(1, baseHeight >> m)/4) * 16` for every mip index and base
dimensions, and yields 1,048,576 / 262,144 / 16 bytes at mips 0, 1 and
the 1×1 mip (mip 10) of a 1024×1024 base. -/
theorem uastc_exact_size_matches_spec (m width height : Nat) :
    uastcBytesPerImageAtLevel m width height = specExactSize m width height
    ∧ uastcBytesPerImageAtLevel 0 1024 1024 = 1048576
    ∧ uastcBytesPerImageAtLevel 1 1024 1024 = 262144
    ∧ uastcBytesPerImageAtLevel 10 1024 1024 = 16 := by
  refine ⟨?_, by rfl, by rfl, by rfl⟩
  unfold uastcBytesPerImageAtLevel specExactSize
  rw [Nat.shiftRight_eq_div_pow, Nat.shiftRight_eq_div_pow]

/-- C4.  Consistency validation never raises a format mismatch when
either the base format or the layer's format is the wildcard 0, and it
always raises one — as its first check — when both are non-zero and
unequal. -/
theorem validate_format_wildcard (container : KtxContainer) (baseParams : BaseParams)
    (layerIndex : Nat) :
    ((baseParams.baseFormat = 0 ∨ container.vkFormat = 0) →
      ∀ e, validateLayerConsistency container baseParams layerIndex = .error e →
        e.isFormatMismatch = false)
    ∧ (baseParams.baseFormat ≠ 0 → container.vkFormat ≠ 0 →
        container.vkFormat ≠ baseParams.baseFormat →
        validateLayerConsistency container baseParams layerIndex
          = .error (.formatMismatch layerIndex baseParams.baseFormat
              container.vkFormat)) := by
  constructor
  · intro h0 e he
    unfold validateLayerConsistency at he
    split at he
    · next hcond =>
      exfalso
      rcases h0 with h | h
      · exact hcond.1 h
      · exact hcond.2.1 h
    · split at he
      · cases he
        simp [ConsErr.isFormatMismatch]
      · split at he
        · cases he
          simp [ConsErr.isFormatMismatch]
        · exact absurd he (by simp)
  · intro h1 h2 h3
    unfold validateLayerConsistency
    rw [if_pos ⟨h1, h2, h3⟩]

/-- Witness for C4: with base format 5, a layer of format 7 at index 1
fails with the format mismatch naming index 1, expected 5, got 7. -/
theorem validate_format_wildcard_witness :
    validateLayerConsistency
      ⟨7, 1, 4, 4, 0, none, 0, [⟨List.replicate 16 0, 16⟩]⟩
      ⟨5, 4, 4, 0, none, 1, 0, 1⟩ 1
      = .error (.formatMismatch 1 5 7) :=
  (validate_format_wildcard
      ⟨7, 1, 4, 4, 0, none, 0, [⟨List.replicate 16 0, 16⟩]⟩
      ⟨5, 4, 4, 0, none, 1, 0, 1⟩ 1).2
    (by decide) (by decide) (by decide)

/-- C1.  For supercompression scheme "none" (0), one assembled mip with
exact theoretical size `E` lays each layer out as a slot of exactly
`E + pad8 E` bytes — the payload trimmed to its first `E` bytes
followed by the padding zeros — in layer order; the combined buffer's
total size is `layerCount * (E + pad)`, and the CombinedLevel's
`uncompressedByteLength` equals that padded total.  The hypothesis
`E ≤ payload length` is the data-model invariant for scheme "none"
(encoders may over-allocate, never under-deliver). -/
theorem assembler_none_padded_layout (baseWidth baseHeight : Nat)
    (encodedLayers : List EncodedLayer) (mipLevel : Nat)
    (layersForThisMip : List MipLevel) (exactSize perImagePadding : Nat)
    (hE : exactSize = uastcBytesPerImageAtLevel mipLevel baseWidth baseHeight)
    (hP : perImagePadding = pad8 exactSize)
    (hg : gatherMip encodedLayers mipLevel = some layersForThisMip)
    (hwell : ∀ l ∈ layersForThisMip, exactSize ≤ l.levelData.length) :
    assembleOneMip baseWidth baseHeight 0 encodedLayers.length encodedLayers mipLevel
      = (Except.ok ⟨(layersForThisMip.map (noneSlot exactSize perImagePadding)).flatten,
            encodedLayers.length * (exactSize + perImagePadding)⟩,
         [Event.allocCombined (encodedLayers.length * (exactSize + perImagePadding))])
    ∧ ((layersForThisMip.map (noneSlot exactSize perImagePadding)).flatten).length
        = encodedLayers.length * (exactSize + perImagePadding)
    ∧ ∀ l ∈ layersForThisMip,
        (noneSlot exactSize perImagePadding l).length = exactSize + perImagePadding := by
  subst hP
  subst hE
  have hN : layersForThisMip.length = encodedLayers.length :=
    gatherMip_length _ _ _ hg
  have hjoin := copyLayers_none_eq_join
    (uastcBytesPerImageAtLevel mipLevel baseWidth baseHeight)
    (pad8 (uastcBytesPerImageAtLevel mipLevel baseWidth baseHeight))
    layersForThisMip [] hwell
  simp only [List.nil_append, List.length_nil, Nat.zero_add] at hjoin
  rw [hN] at hjoin
  refine ⟨?_, ?_, ?_⟩
  · rw [assembleOneMip_zero_eq _ _ _ _ _ _ hg, hjoin, Nat.mul_comm]
  · rw [flatten_noneSlot_length _ _ _ hwell, hN]
  · intro l hl
    have := hwell l hl
    simp only [noneSlot, List.length_append, List.length_take, List.length_replicate]
    omega

def wLayerA : EncodedLayer := ⟨[⟨List.replicate 16 1, 16⟩], 0, 4, 4⟩

def wLayerB : EncodedLayer := ⟨[⟨List.replicate 20 2, 16⟩], 0, 4, 4⟩

/-- Witness for C1: two 4×4 layers (the second over-allocated to 20
bytes) at mip 0, scheme "none": slots of 16 + 0 bytes each, total
2 × 16. -/
theorem assembler_none_padded_layout_witness :
    assembleOneMip 4 4 0 (2 : Nat) [wLayerA, wLayerB] 0
      = (Except.ok ⟨(([⟨List.replicate 16 1, 16⟩,
            ⟨List.replicate 20 2, 16⟩] : List MipLevel).map (noneSlot 16 0)).flatten,
          2 * (16 + 0)⟩,
         [Event.allocCombined (2 * (16 + 0))])
    ∧ ((([⟨List.replicate 16 1, 16⟩, ⟨List.replicate 20 2, 16⟩] : List MipLevel).map
          (noneSlot 16 0)).flatten).length = 2 * (16 + 0)
    ∧ ∀ l ∈ ([⟨List.replicate 16 1, 16⟩, ⟨List.replicate 20 2, 16⟩] : List MipLevel),
        (noneSlot 16 0 l).length = 16 + 0 :=
  assembler_none_padded_layout 4 4 [wLayerA, wLayerB] 0
    [⟨List.replicate 16 1, 16⟩, ⟨List.replicate 20 2, 16⟩] 16 0
    rfl rfl rfl (by decide)

/-- C3.  For any supercompression scheme other than "none", one
assembled mip copies every layer's payload verbatim — no trimming, no
padding: the combined buffer is the concatenation of the payloads in
layer order, its size is the sum of the layers' actual byte lengths,
and the CombinedLevel's `uncompressedByteLength` is the sum of the
layers' own `uncompressedByteLength`. -/
theorem assembler_verbatim_layout (baseWidth baseHeight scheme : Nat)
    (hs : scheme ≠ 0) (encodedLayers : List EncodedLayer) (mipLevel : Nat)
    (layersForThisMip : List MipLevel)
    (hg : gatherMip encodedLayers mipLevel = some layersForThisMip) :
    assembleOneMip baseWidth baseHeight scheme encodedLayers.length
        encodedLayers mipLevel
      = (Except.ok ⟨(layersForThisMip.map (fun l => l.levelData)).flatten,
            (layersForThisMip.map (fun l => l.uncompressedByteLength)).sum⟩,
         [Event.allocCombined ((layersForThisMip.map
            (fun l => l.levelData.length)).sum)])
    ∧ ((layersForThisMip.map (fun l => l.levelData)).flatten).length
        = (layersForThisMip.map (fun l => l.levelData.length)).sum := by
  have hjoin := copyLayers_verbatim_eq_join scheme
    (uastcBytesPerImageAtLevel mipLevel baseWidth baseHeight)
    (pad8 (uastcBytesPerImageAtLevel mipLevel baseWidth baseHeight))
    hs layersForThisMip []
  simp only [List.nil_append, List.length_nil, Nat.zero_add] at hjoin
  refine ⟨?_, ?_⟩
  · rw [assembleOneMip_ne_eq _ _ _ _ hs _ _ _ hg, hjoin]
  · simp only [List.length_flatten, List.map_map]
    rfl

def wLayerC : EncodedLayer := ⟨[⟨[1, 2, 3], 300⟩], 0, 4, 4⟩

def wLayerD : EncodedLayer := ⟨[⟨[4, 5], 200⟩], 0, 4, 4⟩

/-- Witness for C3: two layers with payloads of 3 and 2 bytes under
scheme 1 are concatenated verbatim; total size 5, uncompressed total
500. -/
theorem assembler_verbatim_layout_witness :
    assembleOneMip 4 4 1 (2 : Nat) [wLayerC, wLayerD] 0
      = (Except.ok ⟨(([⟨[1, 2, 3], 300⟩, ⟨[4, 5], 200⟩] : List MipLevel).map
            (fun l => l.levelData)).flatten,
          (([⟨[1, 2, 3], 300⟩, ⟨[4, 5], 200⟩] : List MipLevel).map
            (fun l => l.uncompressedByteLength)).sum⟩,
         [Event.allocCombined ((([⟨[1, 2, 3], 300⟩, ⟨[4, 5], 200⟩] : List MipLevel).map
            (fun l => l.levelData.length)).sum)])
    ∧ ((([⟨[1, 2, 3], 300⟩, ⟨[4, 5], 200⟩] : List MipLevel).map
          (fun l => l.levelData)).flatten).length
        = (([⟨[1, 2, 3], 300⟩, ⟨[4, 5], 200⟩] : List MipLevel).map
            (fun l => l.levelData.length)).sum :=
  assembler_verbatim_layout 4 4 1 (by decide) [wLayerC, wLayerD] 0
    [⟨[1, 2, 3], 300⟩, ⟨[4, 5], 200⟩] rfl

theorem assembleOneMip_no_range (baseWidth baseHeight scheme : Nat)
    (encodedLayers : List EncodedLayer) (mipLevel : Nat) :
    (assembleOneMip baseWidth baseHeight scheme encodedLayers.length
      encodedLayers mipLevel).1 ≠ Except.error AsmError.rangeError := by
  cases hg : gatherMip encodedLayers mipLevel with
  | none =>
    unfold assembleOneMip
    rw [hg]
    simp
  | some ls =>
    have hN := gatherMip_length _ _ _ hg
    by_cases hs : scheme = 0
    · subst hs
      rw [assembleOneMip_zero_eq _ _ _ _ _ _ hg]
      have hbound : 0 + (ls.map (slotAdvance 0
          (uastcBytesPerImageAtLevel mipLevel baseWidth baseHeight)
          (pad8 (uastcBytesPerImageAtLevel mipLevel baseWidth baseHeight)))).sum
          ≤ (List.replicate ((uastcBytesPerImageAtLevel mipLevel baseWidth baseHeight
            + pad8 (uastcBytesPerImageAtLevel mipLevel baseWidth baseHeight))
              * encodedLayers.length) (0 : Nat)).length := by
        simp only [List.length_replicate, Nat.zero_add]
        calc (ls.map (slotAdvance 0
            (uastcBytesPerImageAtLevel mipLevel baseWidth baseHeight)
            (pad8 (uastcBytesPerImageAtLevel mipLevel baseWidth baseHeight)))).sum
            ≤ (uastcBytesPerImageAtLevel mipLevel baseWidth baseHeight
              + pad8 (uastcBytesPerImageAtLevel mipLevel baseWidth baseHeight))
                * ls.length :=
              sum_slotAdvance_none_le _ _ ls
          _ = (uastcBytesPerImageAtLevel mipLevel baseWidth baseHeight
              + pad8 (uastcBytesPerImageAtLevel mipLevel baseWidth baseHeight))
                * encodedLayers.length := by rw [hN]
      obtain ⟨c', hcopy, _⟩ := copyLayers_some_of_le _ _ _ ls _ 0 hbound
      rw [hcopy]
      simp
    · rw [assembleOneMip_ne_eq _ _ _ _ hs _ _ _ hg]
      have hbound : 0 + (ls.map (slotAdvance scheme
          (uastcBytesPerImageAtLevel mipLevel baseWidth baseHeight)
          (pad8 (uastcBytesPerImageAtLevel mipLevel baseWidth baseHeight)))).sum
          ≤ (List.replicate ((ls.map (fun l => l.levelData.length)).sum)
              (0 : Nat)).length := by
        rw [sum_slotAdvance_verbatim _ _ _ hs ls]
        simp
      obtain ⟨c', hcopy, _⟩ := copyLayers_some_of_le _ _ _ ls _ 0 hbound
      rw [hcopy]
      simp

theorem assembleMips_no_range (baseWidth baseHeight scheme : Nat)
    (encodedLayers : List EncodedLayer) :
    ∀ ms : List Nat,
    (assembleMips baseWidth baseHeight scheme encodedLayers.length
      encodedLayers ms).1 ≠ Except.error AsmError.rangeError := by
  intro ms
  induction ms with
  | nil => simp [assembleMips]
  | cons m rest ih =>
    unfold assembleMips
    have h := assembleOneMip_no_range baseWidth baseHeight scheme encodedLayers m
    cases h1 : assembleOneMip baseWidth baseHeight scheme encodedLayers.length
        encodedLayers m with
    | mk r evs =>
      rw [h1] at h
      cases r with
      | error e =>
        simpa using h
      | ok cl =>
        cases h2 : assembleMips baseWidth baseHeight scheme encodedLayers.length
            encodedLayers rest with
        | mk r' evs' =>
          rw [h2] at ih
          cases r' with
          | error e' => simpa using ih
          | ok cls => simp

theorem assembleMipLevels_no_range (encodedLayers : List EncodedLayer)
    (baseParams : Option BaseParams) :
    (assembleMipLevels encodedLayers baseParams).1
      ≠ Except.error AsmError.rangeError := by
  cases baseParams with
  | none => simp [assembleMipLevels]
  | some bp =>
    cases encodedLayers with
    | nil => simp [assembleMipLevels]
    | cons first rest =>
      unfold assembleMipLevels
      exact assembleMips_no_range bp.baseWidth bp.baseHeight
        bp.baseSupercompression (first :: rest) (List.range first.levels.length)

/-- C10.  The mip-assembly loop never writes past the allocated
combined buffer: (1) on any input — including layers whose payload is
shorter than the exact size — `_assembleMipLevels` never results in an
out-of-bounds `set` (RangeError); (2) the trim takes at most
`exactSize` bytes, clamped to the source length; (3) on the buffer the
loop allocates, the copy succeeds, preserves the buffer's total size,
and the final running offset never exceeds that total. -/
theorem assembler_no_out_of_bounds :
    (∀ (encodedLayers : List EncodedLayer) (baseParams : Option BaseParams),
      (assembleMipLevels encodedLayers baseParams).1
        ≠ Except.error AsmError.rangeError)
    ∧ (∀ (exactSize : Nat) (l : MipLevel),
        (l.levelData.take exactSize).length ≤ exactSize)
    ∧ (∀ (scheme exactSize perImagePadding : Nat) (ls : List MipLevel),
        ∃ combined' offset',
          copyLayers scheme exactSize perImagePadding ls
              (List.replicate (if scheme = 0
                then (exactSize + perImagePadding) * ls.length
                else (ls.map (fun l => l.levelData.length)).sum) 0) 0
            = some (combined', offset')
          ∧ combined'.length = (if scheme = 0
              then (exactSize + perImagePadding) * ls.length
              else (ls.map (fun l => l.levelData.length)).sum)
          ∧ offset' ≤ (if scheme = 0
              then (exactSize + perImagePadding) * ls.length
              else (ls.map (fun l => l.levelData.length)).sum)) := by
  refine ⟨assembleMipLevels_no_range, ?_, ?_⟩
  · intro exactSize l
    simp only [List.length_take]
    exact Nat.min_le_left _ _
  · intro scheme exactSize perImagePadding ls
    by_cases hs : scheme = 0
    · subst hs
      simp only [if_pos rfl]
      have hbound : (0 : Nat) + (ls.map (slotAdvance 0 exactSize perImagePadding)).sum
          ≤ (List.replicate ((exactSize + perImagePadding) * ls.length) (0 : Nat)).length := by
        simp only [List.length_replicate, Nat.zero_add]
        exact sum_slotAdvance_none_le _ _ ls
      obtain ⟨c', hcopy, hlen⟩ := copyLayers_some_of_le _ _ _ ls _ 0 hbound
      refine ⟨c', _, hcopy, ?_, ?_⟩
      · rw [hlen]; simp
      · show 0 + (ls.map (slotAdvance 0 exactSize perImagePadding)).sum
          ≤ (exactSize + perImagePadding) * ls.length
        have := sum_slotAdvance_none_le exactSize perImagePadding ls
        omega
    · simp only [if_neg hs]
      have hbound : (0 : Nat) + (ls.map (slotAdvance scheme exactSize perImagePadding)).sum
          ≤ (List.replicate ((ls.map (fun l => l.levelData.length)).sum) (0 : Nat)).length := by
        rw [sum_slotAdvance_verbatim _ _ _ hs ls]
        simp
      obtain ⟨c', hcopy, hlen⟩ := copyLayers_some_of_le _ _ _ ls _ 0 hbound
      refine ⟨c', _, hcopy, ?_, ?_⟩
      · rw [hlen]; simp
      · rw [sum_slotAdvance_verbatim _ _ _ hs ls]
        omega

/-- C5.  Layer sub-buffers are written in ascending layer order: the
bridged running offset of `copyLayers` equals the summed slot advances
(`layerOffset`), and for well-formed layers (non-empty payloads) the
offset of layer `i` is strictly below that of layer `i + 1`, under
either supercompression branch. -/
theorem layer_offsets_strictly_increasing (scheme mipLevel baseWidth baseHeight : Nat)
    (ls : List MipLevel)
    (hnz : ∀ l ∈ ls, 0 < l.levelData.length) :
    (∀ (combined : List Nat) (offset : Nat) (combined' : List Nat) (offset' : Nat),
      copyLayers scheme (uastcBytesPerImageAtLevel mipLevel baseWidth baseHeight)
          (pad8 (uastcBytesPerImageAtLevel mipLevel baseWidth baseHeight))
          ls combined offset = some (combined', offset') →
      offset' = offset + layerOffset scheme
        (uastcBytesPerImageAtLevel mipLevel baseWidth baseHeight)
        (pad8 (uastcBytesPerImageAtLevel mipLevel baseWidth baseHeight)) ls ls.length)
    ∧ ∀ i, i + 1 < ls.length →
        layerOffset scheme (uastcBytesPerImageAtLevel mipLevel baseWidth baseHeight)
          (pad8 (uastcBytesPerImageAtLevel mipLevel baseWidth baseHeight)) ls i
        < layerOffset scheme (uastcBytesPerImageAtLevel mipLevel baseWidth baseHeight)
            (pad8 (uastcBytesPerImageAtLevel mipLevel baseWidth baseHeight)) ls (i + 1) := by
  constructor
  · intro combined offset combined' offset' h
    have := copyLayers_final_offset _ _ _ ls combined offset combined' offset' h
    rw [this]
    unfold layerOffset
    rw [List.take_length]
  · intro i hi
    have hi' : i < ls.length := by omega
    have hmem : ls.get ⟨i, hi'⟩ ∈ ls := ls.get_mem i hi'
    have hlen := hnz _ hmem
    have hadv : 0 < slotAdvance scheme
        (uastcBytesPerImageAtLevel mipLevel baseWidth baseHeight)
        (pad8 (uastcBytesPerImageAtLevel mipLevel baseWidth baseHeight))
        (ls.get ⟨i, hi'⟩) := by
      by_cases hs : scheme = 0
      · subst hs
        have h16 := uastc_ge_sixteen mipLevel baseWidth baseHeight
        have hmin : 0 < min (uastcBytesPerImageAtLevel mipLevel baseWidth baseHeight)
            (ls.get ⟨i, hi'⟩).levelData.length := lt_min (by omega) hlen
        show 0 < min (uastcBytesPerImageAtLevel mipLevel baseWidth baseHeight)
          (ls.get ⟨i, hi'⟩).levelData.length
          + pad8 (uastcBytesPerImageAtLevel mipLevel baseWidth baseHeight)
        omega
      · simp only [slotAdvance, if_neg hs]
        exact hlen
    have htake : ls.take (i + 1) = ls.take i ++ [ls.get ⟨i, hi'⟩] := by
      rw [List.take_succ]
      congr
      rw [List.getElem?_eq_getElem hi']
      rfl
    unfold layerOffset
    rw [htake, List.map_append, List.sum_append]
    simp only [List.map_cons, List.map_nil, List.sum_cons, List.sum_nil]
    omega

/-- Witness for C5: two 16-byte layers at mip 0 of a 4×4 base, scheme
"none": layer 0 is written at offset 0, layer 1 at offset 16. -/
theorem layer_offsets_strictly_increasing_witness :
    layerOffset 0 (uastcBytesPerImageAtLevel 0 4 4)
      (pad8 (uastcBytesPerImageAtLevel 0 4 4))
      [⟨List.replicate 16 1, 16⟩, ⟨List.replicate 16 2, 16⟩] 0
    < layerOffset 0 (uastcBytesPerImageAtLevel 0 4 4)
        (pad8 (uastcBytesPerImageAtLevel 0 4 4))
        [⟨List.replicate 16 1, 16⟩, ⟨List.replicate 16 2, 16⟩] (0 + 1) :=
  (layer_offsets_strictly_increasing 0 0 4 4
      [⟨List.replicate 16 1, 16⟩, ⟨List.replicate 16 2, 16⟩]
      (by decide)).2 0 (by decide)

def unsupportedFormatContainer : KtxContainer :=
  ⟨999, 1, 4, 4, 0, none, 0, [⟨List.replicate 16 7, 16⟩]⟩

/-- Counterexample for C6: a container declaring format 999 — not the
supported 4×4/16-byte-per-block format — assembles successfully; no
unsupported-format failure occurs anywhere in the pipeline. -/
theorem no_unsupported_format_failure :
    resultIsOk (encodePipeline [unsupportedFormatContainer]).1 = true := by
  rfl

/-- C6 amended.  The assembler has no unsupported-format error path at
all: `_assembleMipLevels` ignores the declared base format entirely and
unconditionally applies the 4×4-block, 16-bytes-per-block size rule, so
its result is identical for any two declared formats. -/
theorem assembler_ignores_declared_format (encodedLayers : List EncodedLayer)
    (bp : BaseParams) (f1 f2 : Nat) :
    assembleMipLevels encodedLayers (some { bp with baseFormat := f1 })
      = assembleMipLevels encodedLayers (some { bp with baseFormat := f2 }) := by
  cases encodedLayers <;> rfl

theorem collect_error_at (ci : KtxContainer) (post : List KtxContainer) (e : ConsErr) :
    ∀ (pre : List KtxContainer) (k : Nat) (bp : BaseParams) (acc : List EncodedLayer),
    (∀ (j : Nat) (h : j < pre.length),
      validateLayerConsistency (pre.get ⟨j, h⟩) bp (k + j) = .ok ()) →
    validateLayerConsistency ci bp (k + pre.length) = .error e →
    collectLayers (pre ++ ci :: post) k (some bp) acc
      = .error (.consistency e) := by
  intro pre
  induction pre with
  | nil =>
    intro k bp acc _ hv
    have hv' : validateLayerConsistency ci bp k = .error e := by simpa using hv
    simp only [List.nil_append]
    rw [show collectLayers (ci :: post) k (some bp) acc
        = (match validateLayerConsistency ci bp k with
           | .error e => .error (.consistency e)
           | .ok _ => collectLayers post (k + 1) (some bp) (layerOf ci :: acc))
      from rfl]
    rw [hv']
  | cons p pre' ih =>
    intro k bp acc hok hv
    have h0 : validateLayerConsistency p bp k = .ok () := by
      have := hok 0 (by simp)
      simpa using this
    simp only [List.cons_append]
    rw [show collectLayers (p :: (pre' ++ ci :: post)) k (some bp) acc
        = (match validateLayerConsistency p bp k with
           | .error e => .error (.consistency e)
           | .ok _ => collectLayers (pre' ++ ci :: post) (k + 1) (some bp)
               (layerOf p :: acc))
      from rfl]
    rw [h0]
    refine ih (k + 1) bp (layerOf p :: acc) (fun j hj => ?_) ?_
    · have h := hok (j + 1) (by simp only [List.length_cons]; omega)
      have heq : k + (j + 1) = (k + 1) + j := by omega
      rw [heq] at h
      exact h
    · have heq : (k + 1) + pre'.length = k + (p :: pre').length := by
        simp only [List.length_cons]
        omega
      rw [heq]
      exact hv

theorem validate_mismatch_error (ci : KtxContainer) (bp : BaseParams) (i : Nat)
    (hmm : ci.pixelWidth ≠ bp.baseWidth ∨ ci.pixelHeight ≠ bp.baseHeight ∨
      ci.levels.length ≠ bp.firstLayerMipCount) :
    ∃ e, validateLayerConsistency ci bp i = .error e ∧ consErrAbout bp ci i e := by
  unfold validateLayerConsistency
  by_cases h1 : bp.baseFormat ≠ 0 ∧ ci.vkFormat ≠ 0 ∧ ci.vkFormat ≠ bp.baseFormat
  · refine ⟨.formatMismatch i bp.baseFormat ci.vkFormat, ?_, ?_⟩
    · rw [if_pos h1]
    · exact ⟨rfl, rfl, rfl⟩
  · rw [if_neg h1]
    by_cases h2 : ci.pixelWidth ≠ bp.baseWidth ∨ ci.pixelHeight ≠ bp.baseHeight
    · refine ⟨.sizeMismatch i bp.baseWidth bp.baseHeight ci.pixelWidth ci.pixelHeight,
        ?_, ?_⟩
      · rw [if_pos h2]
      · exact ⟨rfl, rfl, rfl, rfl, rfl⟩
    · rw [if_neg h2]
      have h3 : ci.levels.length ≠ bp.firstLayerMipCount := by tauto
      refine ⟨.mipMismatch i bp.firstLayerMipCount ci.levels.length, ?_, ?_⟩
      · rw [if_pos h3]
      · exact ⟨rfl, rfl, rfl⟩

/-- C7.  If every layer before index `1 + pre.length` validates against
the first layer's base parameters and the layer at that index differs
from the first layer in width, height, or mip count, the whole encode
fails with a ConsistencyError carrying that layer's 0-based index and
the expected/actual values, and the event trace is empty: the failure
happens before the assembler stage and before any combined buffer is
allocated. -/
theorem consistency_error_before_allocation (c0 ci : KtxContainer)
    (pre post : List KtxContainer)
    (hok : ∀ (j : Nat) (h : j < pre.length),
      validateLayerConsistency (pre.get ⟨j, h⟩) (extractBaseParams c0) (1 + j)
        = .ok ())
    (hmm : ci.pixelWidth ≠ c0.pixelWidth ∨ ci.pixelHeight ≠ c0.pixelHeight ∨
      ci.levels.length ≠ c0.levels.length) :
    ∃ err, encodePipeline (c0 :: pre ++ ci :: post)
        = (.error (.consistency err), [])
      ∧ consErrAbout (extractBaseParams c0) ci (1 + pre.length) err := by
  obtain ⟨e, hv, habout⟩ := validate_mismatch_error ci (extractBaseParams c0)
    (1 + pre.length) hmm
  have hcollect := collect_error_at ci post e pre 1 (extractBaseParams c0)
    [layerOf c0] hok hv
  refine ⟨e, ?_, habout⟩
  unfold encodePipeline
  have hstep : collectLayers (c0 :: pre ++ ci :: post) 0 none []
      = collectLayers (pre ++ ci :: post) 1 (some (extractBaseParams c0))
          [layerOf c0] := rfl
  rw [hstep, hcollect]

def wBase0 : KtxContainer := ⟨0, 1, 4, 4, 0, none, 0, [⟨List.replicate 16 1, 16⟩]⟩

def wBadHeight : KtxContainer := ⟨0, 1, 4, 8, 0, none, 0, [⟨List.replicate 16 1, 16⟩]⟩

/-- Witness for C7 (spec scenario B): a second layer whose height is 8
instead of 4 makes the encode fail with a ConsistencyError naming
layer index 1, with an empty event trace. -/
theorem consistency_error_before_allocation_witness :
    ∃ err, encodePipeline [wBase0, wBadHeight]
        = (.error (.consistency err), [])
      ∧ consErrAbout (extractBaseParams wBase0) wBadHeight 1 err :=
  consistency_error_before_allocation wBase0 wBadHeight [] []
    (fun j h => absurd h (by simp)) (by decide)

/-- Counterexample for C8: a layer source that yields zero layers does
not produce an InputError — the assembler stage is entered (the
`assembleStart` event fires) and the failure is the TypeError from
destructuring the null base parameters inside `_assembleMipLevels`. -/
theorem empty_source_reaches_assembler :
    encodePipeline [] = (.error .typeError, [Event.assembleStart]) := by
  rfl

/-- C8 amended.  Zero-input handling is split: the multi-slice array
entry point rejects an empty layer list with its input error before
any Basis-encoder invocation (its result does not depend on the
encoder at all), and the URL entry point rejects an empty URL array
up front with its guard error regardless of fetch or encoder; but the
shared sequential encode path has no such check — with a source that
yields no layers it enters the assembler stage and fails with a
TypeError instead of an InputError (no encoder call, no allocation, no
partial output). -/
theorem zero_layers_guards_and_gap :
    (∀ basisEncodeFn basisEncodeFn' : List NormLayer → Option (List Nat),
      encodeImagesToKtxArray basisEncodeFn [] = (.error .inputError, [])
      ∧ encodeImagesToKtxArray basisEncodeFn []
          = encodeImagesToKtxArray basisEncodeFn' [])
    ∧ (∀ (fetchFn fetchFn' : String → List Nat)
        (encoderFn encoderFn' : ImageLayer → KtxContainer),
      fromImageUrls fetchFn encoderFn [] = (.error .noUrlsError, [])
      ∧ fromImageUrls fetchFn encoderFn [] = fromImageUrls fetchFn' encoderFn' [])
    ∧ encodePipeline [] = (.error .typeError, [Event.assembleStart]) :=
  ⟨fun _ _ => ⟨rfl, rfl⟩, fun _ _ _ _ => ⟨rfl, rfl⟩, rfl⟩

theorem pipelinedGo_eq_enumFrom (fetchFn : String → List Nat) :
    ∀ (rest : List String) (url : String) (i : Nat),
    pipelinedGo fetchFn url (fetchFn url) rest i
      = (List.enumFrom i (url :: rest)).map
          (fun p => mkImageLayer fetchFn p.2 p.1) := by
  intro rest
  induction rest with
  | nil =>
    intro url i
    simp [pipelinedGo, List.enumFrom, mkImageLayer]
  | cons u rest' ih =>
    intro url i
    rw [pipelinedGo, ih u (i + 1)]
    simp [List.enumFrom, mkImageLayer]

/-- C9.  For the same ordered URL list and the same fetch and encode
collaborators, the pipelined one-lookahead image generator yields
exactly the layers the eager spec-side source produces, in the same
order — so the shared encode logic produces identical output (and
hence identical serialized bytes) in both modes. -/
theorem pipelined_eq_eager (fetchFn : String → List Nat)
    (encoderFn : ImageLayer → KtxContainer) (urls : List String) :
    pipelinedYields fetchFn urls = eagerYields fetchFn urls
    ∧ encodeFromLayerSource encoderFn (pipelinedYields fetchFn urls)
      = encodeFromLayerSource encoderFn (eagerYields fetchFn urls) := by
  have h : pipelinedYields fetchFn urls = eagerYields fetchFn urls := by
    cases urls with
    | nil => rfl
    | cons u rest =>
      have h1 : pipelinedYields fetchFn (u :: rest)
          = pipelinedGo fetchFn u (fetchFn u) rest 0 := rfl
      rw [h1, pipelinedGo_eq_enumFrom]
      rfl
  exact ⟨h, by rw [h]⟩
